import Mathlib

/-!
Verification development for the result-synthesis and protocol layer of an
OCR service (Python sources: src/pipeline/parse_results.py,
src/pipeline/format_json.py, src/error/handle_errors.py,
websocket_server.py).

The Python values flowing through the parser are dynamically typed, so we
embed them as a small inductive type `PyVal`; fallible Python operations
(indexing, len, iteration, numeric coercion, sequence unpacking) become
Option-valued functions, and a raised exception inside a try block becomes
a `none` / `Except.error` outcome, exactly mirroring the except-handlers in
the source. Rationals stand in for Python floats; the int(float(x))
coercion is truncation toward zero.
-/

/-- A dynamic Python value, as far as the parsing code inspects one:
strings, numbers, sequences (lists/tuples are not distinguished by the
code), and None. -/
inductive PyVal where
  | pyStr (s : String)
  | pyNum (q : ℚ)
  | pyList (xs : List PyVal)
  | pyNone
deriving Repr

/-- Python truthiness, as used by the guards in parse_results.py
(`if not word_box_data`, `if not chars or not positions`). -/
def pyTruthy : PyVal → Bool
  | .pyNone => false
  | .pyNum q => decide (q ≠ 0)
  | .pyStr s => decide (s ≠ "")
  | .pyList xs => !xs.isEmpty

/-- Python len(); raises (none) on numbers and None. -/
def pyLen : PyVal → Option Nat
  | .pyList xs => some xs.length
  | .pyStr s => some s.length
  | _ => none

/-- Python sequence indexing v[i]; IndexError / TypeError become none. -/
def pyIndex : PyVal → Nat → Option PyVal
  | .pyList xs, i => xs.get? i
  | .pyStr s, i => (s.data.get? i).map (fun c => .pyStr (String.mk [c]))
  | _, _ => none

/-- Python iteration over a sequence (a string iterates its characters);
TypeError on non-iterables becomes none. -/
def pyIter : PyVal → Option (List PyVal)
  | .pyList xs => some xs
  | .pyStr s => some (s.data.map (fun c => PyVal.pyStr (String.mk [c])))
  | _ => none

/-- Numeric coercion: used for float(x) and for arithmetic on values the
code assumes numeric (a TypeError on anything else becomes none).
Numeric strings accepted by Python float() are not modelled; no claim
exercises them. -/
def pyAsNum : PyVal → Option ℚ
  | .pyNum q => some q
  | _ => none

/-- Python str test (text.strip() raises AttributeError on non-strings). -/
def asStr : PyVal → Option String
  | .pyStr s => some s
  | _ => none

/-- int(float(x)) on an exact rational: truncation toward zero, i.e.
T-division of the numerator by the (positive) denominator. -/
def pyTrunc (q : ℚ) : ℤ := q.num.tdiv q.den

/-- Option-monadic map used for the element-wise coercions below. -/
def pyMapM (f : PyVal → Option α) : List PyVal → Option (List α)
  | [] => some []
  | x :: xs => do pure ((← f x) :: (← pyMapM f xs))

/-- Python whitespace for str.split() / str.strip() (ASCII subset). -/
def isPySpace (c : Char) : Bool :=
  c = ' ' ∨ c = '\t' ∨ c = '\n' ∨ c = '\r' ∨ c = '\x0b' ∨ c = '\x0c'

/-- len(text.split()) in Python: number of maximal non-whitespace runs.
The flag records whether the scanner is inside a token. -/
def pyWordCountAux : Bool → List Char → Nat
  | _, [] => 0
  | inTok, c :: cs =>
    if isPySpace c then pyWordCountAux false cs
    else (if inTok then 0 else 1) + pyWordCountAux true cs

def pyWordCount (s : String) : Nat := pyWordCountAux false s.data

/-- Python text.strip(): drop leading and trailing whitespace. -/
def pyStrip (s : String) : String :=
  String.mk (((s.data.dropWhile isPySpace).reverse.dropWhile isPySpace).reverse)

/-- Sequence unpacking `a, b = v` (exactly two elements or ValueError). -/
def unpack2 (v : PyVal) : Option (PyVal × PyVal) :=
  match pyIter v with
  | some [a, b] => some (a, b)
  | _ => none

/-- Sequence unpacking into three names. -/
def unpack3 (v : PyVal) : Option (PyVal × PyVal × PyVal) :=
  match pyIter v with
  | some [a, b, c] => some (a, b, c)
  | _ => none

/-- Sequence unpacking into four names, as in
`total_width, word_char_list, word_pos_list, lang_list = word_box_data`. -/
def unpack4 (v : PyVal) : Option (PyVal × PyVal × PyVal × PyVal) :=
  match pyIter v with
  | some [a, b, c, d] => some (a, b, c, d)
  | _ => none

/-! ## Data model (src/ocr_types/types.py) -/

/-- BoundingBox: four corner points (top-left, top-right, bottom-right,
bottom-left), integer pixel coordinates. -/
structure BoundingBox where
  top_left : ℤ × ℤ
  top_right : ℤ × ℤ
  bottom_right : ℤ × ℤ
  bottom_left : ℤ × ℤ
deriving Repr, DecidableEq

/-- WordFinding: an individual word with its own box and per-character
absolute positions. -/
structure WordFinding where
  word : String
  confidence : ℚ
  coordinates : BoundingBox
  character_positions : List (String × ℤ × ℤ)
deriving Repr, DecidableEq

/-- TextFinding: one assembled region-level finding. raw_word_box_data
stores the untouched metadata value (pyNone for Python None). -/
structure TextFinding where
  text : String
  confidence : ℚ
  coordinates : BoundingBox
  individual_words : Option (List WordFinding)
  raw_word_box_data : PyVal
deriving Repr

structure ConfStats where
  average : ℚ
  minimum : ℚ
  maximum : ℚ
deriving Repr, DecidableEq

structure TextStats where
  total_characters : Nat
  total_words : Nat
  longest_text : String
deriving Repr, DecidableEq

/-- The metadata.error record of an error envelope. -/
structure ErrorInfo where
  etype : String
  message : String
  image_path : String
  traceback : Option String
deriving Repr, DecidableEq

/-- The metadata block shared by success and error envelopes.
has_visualization / visualization_path are Option because the error path
omits those keys. -/
structure EnvMetadata where
  processing_time : ℚ
  image_dimensions : Nat × Nat
  total_text_regions : Nat
  has_visualization : Option Bool
  visualization_path : Option String
  timestamp : ℚ
  success : Bool
  error : Option ErrorInfo
  confidence_stats : ConfStats
  text_stats : TextStats
deriving Repr

/-- The top-level JSON envelope: findings plus metadata. Both the success
path (format_json) and the error path (handle_ocr_error) produce this one
shape. -/
structure Envelope where
  findings : List TextFinding
  metadata : EnvMetadata
deriving Repr

/-! ## Geometry Reconstructor (extract_individual_words,
src/pipeline/parse_results.py lines 12-90).

The whole Python body sits in a try/except returning None, so the
embedding returns `Option (List WordFinding)`: `none` is Python None
("unavailable"), whether reached by an explicit `return None` guard or by
an exception. Inside the per-word loop an exception aborts the whole
function while `continue` only skips the current word, so the loop body is
an `Except Unit (Option WordFinding)`: `.error ()` is a raised exception,
`.ok none` a skipped word. -/

def toExcept : Option α → Except Unit α
  | some a => .ok a
  | none => .error ()

/-- Elements of `chars` as strings, as needed by `''.join(chars)`
(TypeError on a non-str element). -/
def pyStrList (v : PyVal) : Option (List String) := do
  let xs ← pyIter v
  pyMapM asStr xs

/-- The four region-extent reductions
`overall_x1/y1 = min(point[0/1] ...)`, `overall_x2/y2 = max(...)`.
Python min/max of an empty sequence raises, and comparing or subtracting
non-numeric coordinates raises later; both become none. -/
def cornerMins (points : PyVal) : Option (ℚ × ℚ × ℚ × ℚ) := do
  let ps ← pyIter points
  let xs ← pyMapM (fun p => do pyAsNum (← pyIndex p 0)) ps
  let ys ← pyMapM (fun p => do pyAsNum (← pyIndex p 1)) ps
  match xs, ys with
  | x :: xr, y :: yr =>
    pure (xr.foldl min x, yr.foldl min y, xr.foldl max x, yr.foldl max y)
  | _, _ => none

/-- One iteration of the word loop (parse_results.py lines 43-84).
Note the hardcoded `confidence=1.0` at line 78 of the source, and the
ZeroDivisionError when `total_width` is 0 (line 56), which aborts the whole
extraction rather than skipping the word. -/
def processWord (total_width : PyVal) (x1 y1 x2 y2 : ℚ) (chars positions : PyVal) :
    Except Unit (Option WordFinding) :=
  if ¬ pyTruthy chars ∨ ¬ pyTruthy positions then .ok none
  else do
    let charStrs ← toExcept (pyStrList chars)
    let word := String.join charStrs
    let posNums ← toExcept (do pyMapM pyAsNum (← pyIter positions))
    match posNums with
    | [] => .error ()
    | p :: ps =>
      let word_start_pos := ps.foldl min p
      let word_end_pos := ps.foldl max p
      let tw ← toExcept (pyAsNum total_width)
      if tw = 0 then .error ()
      else
        let overall_width := x2 - x1
        let word_start_x := x1 + (word_start_pos / tw) * overall_width
        let word_end_x := x1 + (word_end_pos / tw) * overall_width
        let word_coords : BoundingBox :=
          ⟨(pyTrunc word_start_x, pyTrunc y1), (pyTrunc word_end_x, pyTrunc y1),
           (pyTrunc word_end_x, pyTrunc y2), (pyTrunc word_start_x, pyTrunc y2)⟩
        let char_positions := (charStrs.zip posNums).map (fun cp =>
          (cp.1, pyTrunc (x1 + (cp.2 / tw) * overall_width), pyTrunc ((y1 + y2) / 2)))
        .ok (some ⟨word, 1, word_coords, char_positions⟩)

/-- The word loop folded over `zip(word_char_list, word_pos_list)`. -/
def extractLoop (total_width : PyVal) (x1 y1 x2 y2 : ℚ) :
    List (PyVal × PyVal) → Except Unit (List WordFinding)
  | [] => .ok []
  | (c, p) :: rest => do
    let r ← processWord total_width x1 y1 x2 y2 c p
    let rs ← extractLoop total_width x1 y1 x2 y2 rest
    pure (match r with | none => rs | some w => w :: rs)

/-- extract_individual_words (parse_results.py lines 12-90). -/
def extract_individual_words (word_box_data overall_bbox_points : PyVal) :
    Option (List WordFinding) :=
  if ¬ pyTruthy word_box_data then none
  else match pyLen word_box_data with
  | none => none
  | some n =>
    if n < 3 then none
    else match unpack4 word_box_data with
    | none => none
    | some (total_width, word_char_list, word_pos_list, _lang_list) =>
      if ¬ pyTruthy word_char_list ∨ ¬ pyTruthy word_pos_list then none
      else match cornerMins overall_bbox_points with
      | none => none
      | some (x1, y1, x2, y2) =>
        match (do
          let cs ← toExcept (pyIter word_char_list)
          let ps ← toExcept (pyIter word_pos_list)
          extractLoop total_width x1 y1 x2 y2 (cs.zip ps)) with
        | .error _ => none
        | .ok ws => some ws

/-! ## Result Assembler, parsing side (parse_results,
src/pipeline/parse_results.py lines 92-170).

Each loop iteration sits in its own try/except whose handler does
`continue`, so one entry's parse is an Option-valued function and the loop
is a filterMap: any exception while destructuring an entry skips exactly
that entry. -/

/-- bbox_points[i][0..1] with int(float(.)) applied, as in the
BoundingBox construction at lines 136-141. -/
def parseCorner (points : PyVal) (i : Nat) : Option (ℤ × ℤ) := do
  let p ← pyIndex points i
  let qx ← pyAsNum (← pyIndex p 0)
  let qy ← pyAsNum (← pyIndex p 1)
  pure (pyTrunc qx, pyTrunc qy)

/-- One loop iteration of parse_results (lines 122-162): none = the
except-handler skipped this entry. -/
def parseEntry (result : PyVal) : Option TextFinding := do
  let r1 ← pyIndex result 1
  let n ← pyLen r1
  let (bbox_points, text, confidence, word_box_data) ←
    if n == 3 then do
      let bt ← unpack2 result
      let tcw ← unpack3 bt.2
      pure (bt.1, tcw.1, tcw.2.1, tcw.2.2)
    else do
      let bt ← unpack2 result
      let tc ← unpack2 bt.2
      pure (bt.1, tc.1, tc.2, PyVal.pyNone)
  let tl ← parseCorner bbox_points 0
  let tr ← parseCorner bbox_points 1
  let br ← parseCorner bbox_points 2
  let bl ← parseCorner bbox_points 3
  let t ← asStr text
  let c ← pyAsNum confidence
  let individual_words :=
    match word_box_data with
    | PyVal.pyNone => none
    | wbd => extract_individual_words wbd bbox_points
  pure { text := pyStrip t, confidence := c,
         coordinates := ⟨tl, tr, br, bl⟩,
         individual_words := individual_words,
         raw_word_box_data := word_box_data }

/-- parse_results (lines 92-170). The `if not recognition_results:
return []` shortcut coincides with filterMap on []; the outer try/except
cannot fire for a list input since every per-entry fault is caught inside
the loop. -/
def parse_results (recognition_results : List PyVal) : List TextFinding :=
  recognition_results.filterMap parseEntry

/-! ## Result Assembler, envelope side (format_json,
src/pipeline/format_json.py lines 11-87). -/

/-- Python max(findings, key=len of text): keeps the current best and
replaces it only on a strictly greater key, so the first maximum wins. -/
def pyMaxByLen (acc : TextFinding) : List TextFinding → TextFinding
  | [] => acc
  | f :: fs => pyMaxByLen (if acc.text.length < f.text.length then f else acc) fs

/-- The confidence_stats block (lines 60-66 and 76-80). Python min/max of
a nonempty list are left folds from the head. -/
def confStatsOf (findings : List TextFinding) : ConfStats :=
  match findings.map (fun f => f.confidence) with
  | [] => ⟨0, 0, 0⟩
  | c :: cs =>
    ⟨((c :: cs).sum) / ((c :: cs).length : ℚ), cs.foldl min c, cs.foldl max c⟩

/-- The text_stats block (lines 68-74 and 81-85). -/
def textStatsOf (findings : List TextFinding) : TextStats :=
  match findings with
  | [] => ⟨0, 0, ""⟩
  | f :: fs =>
    ⟨((f :: fs).map (fun g => g.text.length)).sum,
     ((f :: fs).map (fun g => pyWordCount g.text)).sum,
     (pyMaxByLen f fs).text⟩

/-- format_json (lines 11-87). `visualization` is None or a visualization
result with an optional output path; `ts` is the time.time() stamp taken at
line 55. -/
def format_json (findings : List TextFinding) (processing_time : ℚ)
    (image_dimensions : Nat × Nat) (visualization : Option (Option String))
    (ts : ℚ) : Envelope :=
  { findings := findings
    metadata := {
      processing_time := processing_time
      image_dimensions := image_dimensions
      total_text_regions := findings.length
      has_visualization := some visualization.isSome
      visualization_path := match visualization with
        | some (some p) => some p
        | _ => none
      timestamp := ts
      success := true
      error := none
      confidence_stats := confStatsOf findings
      text_stats := textStatsOf findings } }

/-! ## Error Classifier (handle_ocr_error,
src/error/handle_errors.py lines 5-69). -/

/-- The exception classes the isinstance chain at lines 28-39
distinguishes; the payload is str(error). FileNotFoundError, ValueError
and PermissionError are pairwise disjoint classes in Python, so an
inductive with a catch-all constructor is an exact model. -/
inductive PyError where
  | fileNotFound (msg : String)
  | valueError (msg : String)
  | permissionError (msg : String)
  | otherError (msg : String)
deriving Repr, DecidableEq

def pyErrStr : PyError → String
  | .fileNotFound m => m
  | .valueError m => m
  | .permissionError m => m
  | .otherError m => m

/-- traceback.format_exc(): runtime interpreter state, modelled as a
deterministic function of the fault; every claim depends only on whether
the field is present. -/
def format_exc (e : PyError) : String :=
  "Traceback (most recent call last): " ++ pyErrStr e

/-- handle_ocr_error (lines 5-69); `ts` is the time.time() stamp taken at
line 48. -/
def handle_ocr_error (error : PyError) (image_path : String) (ts : ℚ) :
    Envelope :=
  let error_type : String :=
    match error with
    | .fileNotFound _ => "FILE_NOT_FOUND"
    | .valueError _ => "INVALID_IMAGE"
    | .permissionError _ => "PERMISSION_DENIED"
    | .otherError _ => "PROCESSING_ERROR"
  let error_message : String :=
    match error with
    | .fileNotFound _ => "Image file not found: " ++ image_path
    | .valueError m => "Invalid image file: " ++ m
    | .permissionError _ => "Permission denied accessing file: " ++ image_path
    | .otherError m => "OCR processing failed: " ++ m
  { findings := []
    metadata := {
      processing_time := 0
      image_dimensions := (0, 0)
      total_text_regions := 0
      has_visualization := none
      visualization_path := none
      timestamp := ts
      success := false
      error := some {
        etype := error_type
        message := error_message
        image_path := image_path
        traceback :=
          if error_type == "PROCESSING_ERROR" then some (format_exc error)
          else none }
      confidence_stats := ⟨0, 0, 0⟩
      text_stats := ⟨0, 0, ""⟩ } }

/-! ## Protocol Server (WebSocketOCRServer.handle_client,
websocket_server.py lines 124-175).

The external collaborators inside process_image_websocket (base64/PIL
decoding and the engine call) are opaque; an inbound message is therefore
embedded by what those collaborators yield for it:
  - badJson: json.loads raises (line 159 handler);
  - noImage: a JSON object without the image key (line 135 guard);
  - image (fail e): the try at line 89 raises e — in particular
    base64_to_numpy wraps every decode failure as
    ValueError ("Failed to decode base64 image: ...") (line 82);
  - image (ok dims recs): decoding succeeds with the given dimensions and
    the engine returns the given raw recognition list.
The async-for sends exactly one response per message and never leaves the
loop on a handled failure, so a connection is a map over its messages. -/

inductive OcrOutcome where
  | fail (e : PyError)
  | ok (dims : Nat × Nat) (recs : List PyVal)
deriving Repr

inductive InMsg where
  | badJson
  | noImage
  | image (outcome : OcrOutcome)
deriving Repr

/-- A reply on the channel: either the minimal protocol-error object
`{"success": false, "error": msg}` or a full envelope. -/
inductive WsResponse where
  | protocolError (msg : String)
  | envelope (env : Envelope)
deriving Repr

/-- process_image_websocket (lines 84-122). -/
def process_image_websocket (o : OcrOutcome) (pt ts : ℚ) : Envelope :=
  match o with
  | .fail e => handle_ocr_error e "websocket_image" ts
  | .ok dims recs => format_json (parse_results recs) pt dims none ts

/-- The body of the per-message loop (lines 130-170): one inbound message,
one outbound response. -/
def wsStep (pt ts : ℚ) : InMsg → WsResponse
  | .badJson => .protocolError "Invalid JSON format"
  | .noImage => .protocolError "Missing 'image' field in request"
  | .image o => .envelope (process_image_websocket o pt ts)

/-- handle_client (lines 124-175): the async-for over the connection. -/
def handle_client (pt ts : ℚ) (msgs : List InMsg) : List WsResponse :=
  msgs.map (wsStep pt ts)

/-! ## Statement-side helpers and concrete inputs -/

/-- A Python list of strings. -/
def strList (ss : List String) : PyVal := .pyList (ss.map .pyStr)

/-- A Python list of numbers. -/
def numList (qs : List ℚ) : PyVal := .pyList (qs.map .pyNum)

/-- An axis-aligned region quad in the corner order the engine emits. -/
def axisBox (x1 y1 x2 y2 : ℚ) : PyVal :=
  .pyList [.pyList [.pyNum x1, .pyNum y1], .pyList [.pyNum x2, .pyNum y1],
           .pyList [.pyNum x2, .pyNum y2], .pyList [.pyNum x1, .pyNum y2]]

/-- What one loop iteration contributes to the word list when no exception
escapes it. -/
def exceptYield : Except Unit (Option WordFinding) → Option WordFinding
  | .ok r => r
  | .error _ => none

/-- The raw confidence slot of an engine entry: result[1][1], the value
parse_results passes to float(). -/
def rawConfOf (v : PyVal) : Option ℚ := do
  pyAsNum (← pyIndex (← pyIndex v 1) 1)

/-- The region quad of the spec's worked example: extent (0,0)-(30,10). -/
def bboxEx : PyVal := axisBox 0 0 30 10

/-- Well-formed 4-element word metadata: total_width 30, one word "Hi"
with positions [0, 5], empty language-tag list. -/
def wbdEx : PyVal := .pyList [.pyNum 30,
  .pyList [strList ["H", "i"]],
  .pyList [numList [0, 5]],
  .pyList []]

/-- The same metadata with the language tags omitted: 3 elements. -/
def wbd3 : PyVal := .pyList [.pyNum 30,
  .pyList [strList ["H", "i"]],
  .pyList [numList [0, 5]]]

/-- Metadata with total_width 0 and two well-formed words. -/
def wbd0 : PyVal := .pyList [.pyNum 0,
  .pyList [strList ["a"], strList ["b"]],
  .pyList [numList [1], numList [2]],
  .pyNone]

/-- Metadata whose first word has 2 characters but only 1 position
(mismatched arrays), second word well-formed. -/
def wbdMis : PyVal := .pyList [.pyNum 30,
  .pyList [strList ["a", "b"], strList ["c"]],
  .pyList [numList [6], numList [9]],
  .pyNone]

/-- Metadata whose first word has empty arrays and whose second word is
well-formed. -/
def wbdSkip : PyVal := .pyList [.pyNum 30,
  .pyList [strList [], strList ["b"]],
  .pyList [numList [], numList [15]],
  .pyNone]

/-- A well-formed engine entry: region text " Hi there ", confidence 1/2,
word metadata wbdEx. -/
def entryEx : PyVal := .pyList [bboxEx, .pyList [.pyStr " Hi there ", .pyNum (1/2), wbdEx]]

/-- An entry with raw confidence 3/2 (out of range) and no word metadata. -/
def entryConf15 : PyVal := .pyList [bboxEx, .pyList [.pyStr "A", .pyNum (3/2)]]

/-- A malformed entry: its second slot has arity 1 (the confidence field
is missing), so both unpack branches raise. -/
def entryBad : PyVal := .pyList [bboxEx, .pyList [.pyStr "x"]]

/-- A region entry with text "A", confidence 1/2 and no word metadata. -/
def entryA : PyVal := .pyList [bboxEx, .pyList [.pyStr "A", .pyNum (1/2)]]

/-- The WordFinding the reconstructor produces for the word of wbdEx. -/
def wordHi : WordFinding :=
  { word := "Hi", confidence := 1,
    coordinates := ⟨(0, 0), (5, 0), (5, 10), (0, 10)⟩,
    character_positions := [("H", 0, 5), ("i", 5, 5)] }

/-- The TextFinding parse_results produces for entryEx. -/
def findingEx : TextFinding :=
  { text := "Hi there", confidence := 1/2,
    coordinates := ⟨(0, 0), (30, 0), (30, 10), (0, 10)⟩,
    individual_words := some [wordHi],
    raw_word_box_data := wbdEx }

/-- The TextFinding parse_results produces for entryA. -/
def findingA : TextFinding :=
  { text := "A", confidence := 1/2,
    coordinates := ⟨(0, 0), (30, 0), (30, 10), (0, 10)⟩,
    individual_words := none,
    raw_word_box_data := .pyNone }

/-- A standalone finding used to exercise the statistics block. -/
def findingHello : TextFinding :=
  { text := "HELLO", confidence := 19/20,
    coordinates := ⟨(0, 0), (1, 0), (1, 1), (0, 1)⟩,
    individual_words := none,
    raw_word_box_data := .pyNone }

/-! ## Supporting lemmas -/

theorem pyMapM_asStr_map (ss : List String) :
    pyMapM asStr (ss.map PyVal.pyStr) = some ss := by
  induction ss with
  | nil => rfl
  | cons s ss ih => simp [pyMapM, asStr, ih]

theorem pyMapM_num_map (qs : List ℚ) :
    pyMapM pyAsNum (qs.map PyVal.pyNum) = some qs := by
  induction qs with
  | nil => rfl
  | cons q qs ih => simp [pyMapM, pyAsNum, ih]

theorem foldl_min_le (l : List ℚ) (a : ℚ) :
    l.foldl min a ≤ a ∧ ∀ x ∈ l, l.foldl min a ≤ x := by
  induction l generalizing a with
  | nil => simp
  | cons b l ih =>
    simp only [List.foldl_cons]
    refine ⟨le_trans (ih (min a b)).1 (min_le_left a b), ?_⟩
    intro x hx
    rcases List.mem_cons.mp hx with h | h
    · subst h; exact le_trans (ih (min a x)).1 (min_le_right a x)
    · exact (ih (min a b)).2 x h

theorem foldl_min_mem (l : List ℚ) (a : ℚ) :
    l.foldl min a = a ∨ l.foldl min a ∈ l := by
  induction l generalizing a with
  | nil => simp
  | cons b l ih =>
    rcases le_total a b with h | h
    · rcases ih a with h1 | h1
      · left; simpa [List.foldl_cons, min_eq_left h] using h1
      · right; simp [List.foldl_cons, min_eq_left h]; right; exact h1
    · rcases ih b with h1 | h1
      · right; simp [List.foldl_cons, min_eq_right h]; left; exact h1
      · right; simp [List.foldl_cons, min_eq_right h]; right; exact h1

theorem foldl_max_ge (l : List ℚ) (a : ℚ) :
    a ≤ l.foldl max a ∧ ∀ x ∈ l, x ≤ l.foldl max a := by
  induction l generalizing a with
  | nil => simp
  | cons b l ih =>
    simp only [List.foldl_cons]
    refine ⟨le_trans (le_max_left a b) (ih (max a b)).1, ?_⟩
    intro x hx
    rcases List.mem_cons.mp hx with h | h
    · subst h; exact le_trans (le_max_right a x) (ih (max a x)).1
    · exact (ih (max a b)).2 x h

theorem foldl_max_mem (l : List ℚ) (a : ℚ) :
    l.foldl max a = a ∨ l.foldl max a ∈ l := by
  induction l generalizing a with
  | nil => simp
  | cons b l ih =>
    rcases le_total b a with h | h
    · rcases ih a with h1 | h1
      · left; simpa [List.foldl_cons, max_eq_left h] using h1
      · right; simp [List.foldl_cons, max_eq_left h]; right; exact h1
    · rcases ih b with h1 | h1
      · right; simp [List.foldl_cons, max_eq_right h]; left; exact h1
      · right; simp [List.foldl_cons, max_eq_right h]; right; exact h1

theorem excBind_ok (a : α) (f : α → Except Unit β) :
    (Except.ok a >>= f : Except Unit β) = f a := rfl

/-- A word whose character or position array is falsy is skipped by the
`continue` at line 45. -/
theorem processWord_skip (tw : PyVal) (x1 y1 x2 y2 : ℚ) (c p : PyVal)
    (h : ¬ pyTruthy c ∨ ¬ pyTruthy p) :
    processWord tw x1 y1 x2 y2 c p = .ok none := by
  unfold processWord
  rw [if_pos]
  exact h

/-- Evaluation of one loop iteration on a well-formed word under a
nonzero numeric total_width. -/
theorem processWord_wf (tw x1 y1 x2 y2 : ℚ) (htw : tw ≠ 0)
    (s : String) (ss : List String) (q : ℚ) (qs : List ℚ) :
    processWord (.pyNum tw) x1 y1 x2 y2 (strList (s :: ss)) (numList (q :: qs)) =
    .ok (some {
      word := String.join (s :: ss)
      confidence := 1
      coordinates := {
        top_left := (pyTrunc (x1 + (qs.foldl min q / tw) * (x2 - x1)), pyTrunc y1)
        top_right := (pyTrunc (x1 + (qs.foldl max q / tw) * (x2 - x1)), pyTrunc y1)
        bottom_right := (pyTrunc (x1 + (qs.foldl max q / tw) * (x2 - x1)), pyTrunc y2)
        bottom_left := (pyTrunc (x1 + (qs.foldl min q / tw) * (x2 - x1)), pyTrunc y2) }
      character_positions := ((s :: ss).zip (q :: qs)).map (fun cp =>
        (cp.1, pyTrunc (x1 + (cp.2 / tw) * (x2 - x1)), pyTrunc ((y1 + y2) / 2))) }) := by
  have hcs : pyStrList (strList (s :: ss)) = some (s :: ss) := pyMapM_asStr_map (s :: ss)
  have hps : (do let xs ← pyIter (numList (q :: qs)); pyMapM pyAsNum xs) = some (q :: qs) :=
    pyMapM_num_map (q :: qs)
  unfold processWord
  rw [if_neg]
  · simp only [hcs, hps, toExcept, pyAsNum, excBind_ok, if_neg htw]
  · simp [strList, numList, pyTruthy]

/-- A word with total_width 0 and truthy arrays raises ZeroDivisionError,
which escapes the loop. -/
theorem processWord_zero_div (x1 y1 x2 y2 : ℚ)
    (s : String) (ss : List String) (q : ℚ) (qs : List ℚ) :
    processWord (.pyNum 0) x1 y1 x2 y2 (strList (s :: ss)) (numList (q :: qs)) =
    .error () := by
  have hcs : pyStrList (strList (s :: ss)) = some (s :: ss) := pyMapM_asStr_map (s :: ss)
  have hps : (do let xs ← pyIter (numList (q :: qs)); pyMapM pyAsNum xs) = some (q :: qs) :=
    pyMapM_num_map (q :: qs)
  unfold processWord
  rw [if_neg]
  · simp only [hcs, hps, toExcept, pyAsNum, excBind_ok]
    rfl
  · simp [strList, numList, pyTruthy]

/-- When no iteration raises, the loop returns exactly the words the
non-skipped iterations yield, in order. -/
theorem extractLoop_ok (tw : PyVal) (x1 y1 x2 y2 : ℚ)
    (l : List (PyVal × PyVal))
    (h : ∀ p ∈ l, ∃ r, processWord tw x1 y1 x2 y2 p.1 p.2 = .ok r) :
    extractLoop tw x1 y1 x2 y2 l =
      .ok (l.filterMap (fun p => exceptYield (processWord tw x1 y1 x2 y2 p.1 p.2))) := by
  induction l with
  | nil => rfl
  | cons hd tl ih =>
    obtain ⟨r, hr⟩ := h hd (List.mem_cons_self hd tl)
    have htl := ih (fun p hp => h p (List.mem_cons_of_mem hd hp))
    cases hd with
    | mk c p =>
      cases r with
      | none =>
        simp only [extractLoop, hr, htl, List.filterMap_cons, exceptYield]
        rfl
      | some w =>
        simp only [extractLoop, hr, htl, List.filterMap_cons, exceptYield]
        rfl

/-- The region-extent computation on an axis-aligned quad. -/
theorem cornerMins_axis (x1 y1 x2 y2 : ℚ) (hx : x1 ≤ x2) (hy : y1 ≤ y2) :
    cornerMins (axisBox x1 y1 x2 y2) = some (x1, y1, x2, y2) := by
  simp only [cornerMins, axisBox, pyIter, pyIndex, pyAsNum, pyMapM, List.get?,
    Option.pure_def, Option.bind_eq_bind, Option.some_bind, List.foldl]
  simp [min_eq_left hx, min_eq_left hy, max_eq_right hx, max_eq_right hy,
    max_eq_left hx, max_eq_left hy, min_self, max_self]

/-- extract_individual_words on a well-formed 4-element metadata list:
when no word raises, the output is exactly the non-skipped words, in
order. -/
theorem extract_wf (tw : ℚ) (cs ps : List PyVal) (lang bbox : PyVal)
    (x1 y1 x2 y2 : ℚ)
    (hbox : cornerMins bbox = some (x1, y1, x2, y2))
    (hcs : cs ≠ []) (hps : ps ≠ [])
    (hwords : ∀ p ∈ cs.zip ps, ∃ r, processWord (.pyNum tw) x1 y1 x2 y2 p.1 p.2 = .ok r) :
    extract_individual_words (.pyList [.pyNum tw, .pyList cs, .pyList ps, lang]) bbox =
      some ((cs.zip ps).filterMap
        (fun p => exceptYield (processWord (.pyNum tw) x1 y1 x2 y2 p.1 p.2))) := by
  have hloop := extractLoop_ok (.pyNum tw) x1 y1 x2 y2 (cs.zip ps) hwords
  unfold extract_individual_words
  rw [if_neg (by simp [pyTruthy])]
  simp only [pyLen, List.length]
  rw [if_neg (by omega)]
  simp only [unpack4, pyIter]
  rw [if_neg (by simp [pyTruthy, hcs, hps])]
  rw [hbox]
  simp only [pyIter, toExcept, excBind_ok, hloop]

/-- Python max with a key: the result is the accumulator (and then bounds
everything), or the first list element that strictly exceeds the
accumulator and everything before it, and bounds everything. -/
theorem pyMaxByLen_spec (fs : List TextFinding) (acc : TextFinding) :
    (pyMaxByLen acc fs = acc ∧ ∀ f ∈ fs, f.text.length ≤ acc.text.length) ∨
    (∃ i : Fin fs.length, pyMaxByLen acc fs = fs.get i ∧
      acc.text.length < (fs.get i).text.length ∧
      (∀ f ∈ fs, f.text.length ≤ (fs.get i).text.length) ∧
      (∀ j : Fin fs.length, j.val < i.val →
        (fs.get j).text.length < (fs.get i).text.length)) := by
  induction fs generalizing acc with
  | nil => left; exact ⟨rfl, by simp⟩
  | cons f fs ih =>
    by_cases hlt : acc.text.length < f.text.length
    · have hstep : pyMaxByLen acc (f :: fs) = pyMaxByLen f fs := by
        simp [pyMaxByLen, hlt]
      right
      rcases ih f with ⟨heq, hbound⟩ | ⟨i, heq, hgt, hbound, hfirst⟩
      · refine ⟨⟨0, Nat.succ_pos _⟩, ?_, ?_, ?_, ?_⟩
        · rw [hstep, heq]; rfl
        · exact hlt
        · intro g hg
          rcases List.mem_cons.mp hg with h | h
          · subst h; exact le_refl _
          · exact hbound g h
        · intro j hj
          have hj0 : j.val < 0 := hj
          omega
      · refine ⟨⟨i.val + 1, Nat.succ_lt_succ i.isLt⟩, ?_, ?_, ?_, ?_⟩
        · rw [hstep, heq]; rfl
        · exact lt_trans hlt hgt
        · intro g hg
          rcases List.mem_cons.mp hg with h | h
          · subst h; exact le_of_lt hgt
          · exact hbound g h
        · intro j hj
          rcases j with ⟨jv, hv⟩
          have hj1 : jv < i.val + 1 := hj
          cases jv with
          | zero => exact hgt
          | succ n =>
            have hn : n < fs.length := Nat.lt_of_succ_lt_succ hv
            exact hfirst ⟨n, hn⟩ (show n < i.val by omega)
    · push_neg at hlt
      have hstep : pyMaxByLen acc (f :: fs) = pyMaxByLen acc fs := by
        simp only [pyMaxByLen, if_neg (not_lt.mpr hlt)]
      rcases ih acc with ⟨heq, hbound⟩ | ⟨i, heq, hgt, hbound, hfirst⟩
      · left
        refine ⟨by rw [hstep, heq], ?_⟩
        intro g hg
        rcases List.mem_cons.mp hg with h | h
        · subst h; exact hlt
        · exact hbound g h
      · right
        refine ⟨⟨i.val + 1, Nat.succ_lt_succ i.isLt⟩, ?_, ?_, ?_, ?_⟩
        · rw [hstep, heq]; rfl
        · exact hgt
        · intro g hg
          rcases List.mem_cons.mp hg with h | h
          · subst h; exact le_trans hlt (le_of_lt hgt)
          · exact hbound g h
        · intro j hj
          rcases j with ⟨jv, hv⟩
          have hj1 : jv < i.val + 1 := hj
          cases jv with
          | zero => exact lt_of_le_of_lt hlt hgt
          | succ n =>
            have hn : n < fs.length := Nat.lt_of_succ_lt_succ hv
            exact hfirst ⟨n, hn⟩ (show n < i.val by omega)

/-- Destructuring `a, b = v` binds b to v[1]. -/
theorem unpack2_index1 (v a b : PyVal) (h : unpack2 v = some (a, b)) :
    pyIndex v 1 = some b := by
  cases v with
  | pyList xs =>
    rcases xs with _ | ⟨x, _ | ⟨y, _ | ⟨z, rest⟩⟩⟩ <;> simp [unpack2, pyIter] at h
    obtain ⟨h1, h2⟩ := h
    subst h1; subst h2; rfl
  | pyStr s =>
    obtain ⟨l⟩ := s
    rcases l with _ | ⟨c1, _ | ⟨c2, _ | ⟨c3, rest⟩⟩⟩ <;> simp [unpack2, pyIter] at h
    obtain ⟨h1, h2⟩ := h
    subst h1; subst h2; rfl
  | pyNum q => simp [unpack2, pyIter] at h
  | pyNone => simp [unpack2, pyIter] at h

/-- Destructuring `a, b, c = v` binds b to v[1]. -/
theorem unpack3_index1 (v a b c : PyVal) (h : unpack3 v = some (a, b, c)) :
    pyIndex v 1 = some b := by
  cases v with
  | pyList xs =>
    rcases xs with _ | ⟨x, _ | ⟨y, _ | ⟨z, _ | ⟨u, rest⟩⟩⟩⟩ <;> simp [unpack3, pyIter] at h
    obtain ⟨h1, h2, h3⟩ := h
    subst h1; subst h2; subst h3; rfl
  | pyStr s =>
    obtain ⟨l⟩ := s
    rcases l with _ | ⟨c1, _ | ⟨c2, _ | ⟨c3, _ | ⟨c4, rest⟩⟩⟩⟩ <;> simp [unpack3, pyIter] at h
    obtain ⟨h1, h2, h3⟩ := h
    subst h1; subst h2; subst h3; rfl
  | pyNum q => simp [unpack3, pyIter] at h
  | pyNone => simp [unpack3, pyIter] at h

/-- The assembler stores float(result[1][1]) unchanged as the finding
confidence: whatever parses, its confidence is the raw engine value. -/
theorem parseEntry_conf (v : PyVal) (f : TextFinding) (h : parseEntry v = some f) :
    rawConfOf v = some f.confidence := by
  simp only [parseEntry, Option.bind_eq_bind, Option.bind_eq_some] at h
  obtain ⟨r1, hr1, n, hn, h⟩ := h
  by_cases h3 : (n == 3) = true
  · rw [if_pos h3] at h
    simp only [Option.bind_eq_some, Option.pure_def, Option.some.injEq] at h
    obtain ⟨bt, hbt, tcw, htcw, y, hy, tl, htl, tr, htr, br, hbr, bl, hbl, t, ht, c, hc, hf⟩ := h
    obtain ⟨b1, b2⟩ := bt
    obtain ⟨t1, t2, t3⟩ := tcw
    subst hy
    have hb2 : pyIndex v 1 = some b2 := unpack2_index1 v b1 b2 hbt
    have hb2r : b2 = r1 := by
      rw [hr1] at hb2
      exact (Option.some.injEq _ _).mp hb2.symm
    subst hb2r
    have ht2 : pyIndex b2 1 = some t2 := unpack3_index1 b2 t1 t2 t3 htcw
    have hfc : f.confidence = c := by rw [← hf]
    simp only [rawConfOf, Option.bind_eq_bind, hr1, Option.some_bind, ht2]
    rw [hfc]
    exact hc
  · rw [if_neg h3] at h
    simp only [Option.bind_eq_some, Option.pure_def, Option.some.injEq] at h
    obtain ⟨bt, hbt, tc, htc, y, hy, tl, htl, tr, htr, br, hbr, bl, hbl, t, ht, c, hc, hf⟩ := h
    obtain ⟨b1, b2⟩ := bt
    obtain ⟨t1, t2⟩ := tc
    subst hy
    have hb2 : pyIndex v 1 = some b2 := unpack2_index1 v b1 b2 hbt
    have hb2r : b2 = r1 := by
      rw [hr1] at hb2
      exact (Option.some.injEq _ _).mp hb2.symm
    subst hb2r
    have ht2 : pyIndex b2 1 = some t2 := unpack2_index1 b2 t1 t2 htc
    have hfc : f.confidence = c := by rw [← hf]
    simp only [rawConfOf, Option.bind_eq_bind, hr1, Option.some_bind, ht2]
    rw [hfc]
    exact hc

/-- Evaluation of the reconstructor on the worked example wbdEx. -/
theorem extract_wbdEx : extract_individual_words wbdEx bboxEx = some [wordHi] := by
  have hpw := processWord_wf 30 0 0 30 10 (by norm_num) "H" ["i"] 0 [5]
  have h := extract_wf 30 [strList ["H", "i"]] [numList [0, 5]] (.pyList []) bboxEx
    0 0 30 10 (cornerMins_axis 0 0 30 10 (by norm_num) (by norm_num))
    (by simp) (by simp)
    (by
      intro pr hpr
      have hpr2 : pr = (strList ["H", "i"], numList [0, 5]) := by simpa using hpr
      subst hpr2
      exact ⟨_, hpw⟩)
  refine h.trans ?_
  simp only [List.zip_cons_cons, List.zip_nil_right, List.filterMap_cons,
    List.filterMap_nil, exceptYield, hpw]
  norm_num [wordHi, pyTrunc, List.foldl, String.join]
  rfl

/-! ## Claim theorems -/

/-- C10: for every fault, source path and timestamp, the error envelope
reports processing_time 0.0, image dimensions (0, 0), zero regions,
success false, empty findings, zeroed confidence stats and zero/empty text
stats; only the timestamp and the error record vary. -/
theorem C10_error_envelope_constant_fields (e : PyError) (p : String) (ts : ℚ) :
    (handle_ocr_error e p ts).findings = [] ∧
    (handle_ocr_error e p ts).metadata.processing_time = 0 ∧
    (handle_ocr_error e p ts).metadata.image_dimensions = (0, 0) ∧
    (handle_ocr_error e p ts).metadata.total_text_regions = 0 ∧
    (handle_ocr_error e p ts).metadata.success = false ∧
    (handle_ocr_error e p ts).metadata.confidence_stats = ⟨0, 0, 0⟩ ∧
    (handle_ocr_error e p ts).metadata.text_stats = ⟨0, 0, ""⟩ ∧
    (handle_ocr_error e p ts).metadata.timestamp = ts := by
  exact ⟨rfl, rfl, rfl, rfl, rfl, rfl, rfl, rfl⟩

/-- C7: the Error Classifier maps every fault to exactly one of the four
stable kinds following the isinstance chain, attaches a traceback exactly
when the kind is PROCESSING_ERROR, and always returns a complete Envelope
(the same record type the success path produces) with empty findings and
success false. -/
theorem C7_error_classification (e : PyError) (p : String) (ts : ℚ) :
    (handle_ocr_error e p ts).findings = [] ∧
    (handle_ocr_error e p ts).metadata.success = false ∧
    ∃ info, (handle_ocr_error e p ts).metadata.error = some info ∧
      (info.etype = "FILE_NOT_FOUND" ∨ info.etype = "INVALID_IMAGE" ∨
        info.etype = "PERMISSION_DENIED" ∨ info.etype = "PROCESSING_ERROR") ∧
      ((∃ m, e = .fileNotFound m) ↔ info.etype = "FILE_NOT_FOUND") ∧
      ((∃ m, e = .valueError m) ↔ info.etype = "INVALID_IMAGE") ∧
      ((∃ m, e = .permissionError m) ↔ info.etype = "PERMISSION_DENIED") ∧
      ((∃ m, e = .otherError m) ↔ info.etype = "PROCESSING_ERROR") ∧
      (info.traceback ≠ none ↔ info.etype = "PROCESSING_ERROR") := by
  cases e <;> simp [handle_ocr_error]

/-- C2 (code bug): the source hardcodes confidence=1.0 at
parse_results.py line 78 — against its own inline comment — so a region
with confidence 1/2 yields WordFindings with confidence 1, not the
region's confidence. -/
theorem C2_word_confidence_hardcoded :
    ∃ f w, parse_results [entryEx] = [f] ∧
      f.confidence = 1/2 ∧
      f.individual_words = some [w] ∧
      w.confidence = 1 ∧
      w.confidence ≠ f.confidence := by
  refine ⟨_, _, rfl, rfl, rfl, rfl, by norm_num⟩

/-- C4 counterexample: metadata of exactly 3 elements (language tags
omitted) passes the len guard but fails the 4-name unpacking, so the
reconstructor returns unavailable, not the word list the claim promises. -/
theorem C4_counterexample :
    pyLen wbd3 = some 3 ∧ extract_individual_words wbd3 bboxEx = none := ⟨rfl, rfl⟩

/-- C4 amended: the reconstructor returns unavailable for absent, falsy,
or shorter-than-3 metadata, and ALSO for any 3-element metadata (the
unpacking needs exactly 4 elements); a well-formed 4-element metadata
yields the ordered word list. -/
theorem C4_amended_metadata_arity :
    (∀ a b c bbox : PyVal, extract_individual_words (.pyList [a, b, c]) bbox = none) ∧
    (∀ bbox : PyVal, extract_individual_words .pyNone bbox = none) ∧
    (∀ bbox : PyVal, extract_individual_words (.pyList []) bbox = none) ∧
    (∀ a b bbox : PyVal, extract_individual_words (.pyList [a, b]) bbox = none) ∧
    extract_individual_words wbdEx bboxEx = some [wordHi] := by
  refine ⟨?_, ?_, ?_, ?_, extract_wbdEx⟩
  · intro a b c bbox
    simp [extract_individual_words, pyTruthy, pyLen, unpack4, pyIter]
  · intro bbox
    simp [extract_individual_words, pyTruthy]
  · intro bbox
    simp [extract_individual_words, pyTruthy]
  · intro a b bbox
    simp [extract_individual_words, pyTruthy, pyLen]

/-- C1 counterexample: with total_width 0 and two well-formed words the
whole extraction returns unavailable (the claim expects both words merely
skipped, the breakdown itself kept); and a word with 2 characters but 1
position (mismatched arrays) is NOT skipped: both words of wbdMis are
produced. -/
theorem C1_counterexample :
    extract_individual_words wbd0 bboxEx = none ∧
    (extract_individual_words wbdMis bboxEx).map List.length = some 2 := ⟨rfl, rfl⟩

/-- C3 counterexample: the assembler does not bound the confidence — a
raw engine confidence of 3/2 is stored as 3/2, violating
confidence ≤ 1.0. -/
theorem C3_counterexample :
    ∃ f, parse_results [entryConf15] = [f] ∧ f.confidence = 3/2 ∧
      ¬ (f.confidence ≤ 1) := by
  refine ⟨_, rfl, rfl, by norm_num⟩

/-- C1 amended: a word whose character or position array is empty is
skipped while every other word that parses still yields its WordFinding,
in order; but total_width = 0 is not a per-word skip — the division
raises and the whole breakdown becomes unavailable (wbd0) — and a word
with nonempty mismatched arrays is not skipped at all (see
C1_counterexample). -/
theorem C1_amended_word_guard (tw x1 y1 x2 y2 : ℚ) (bbox : PyVal)
    (hbox : cornerMins bbox = some (x1, y1, x2, y2))
    (cs ps : List PyVal) (hcs : cs ≠ []) (hps : ps ≠ []) (lang : PyVal)
    (hwords : ∀ p ∈ cs.zip ps, ∃ r, processWord (.pyNum tw) x1 y1 x2 y2 p.1 p.2 = .ok r) :
    extract_individual_words (.pyList [.pyNum tw, .pyList cs, .pyList ps, lang]) bbox =
      some ((cs.zip ps).filterMap
        (fun p => exceptYield (processWord (.pyNum tw) x1 y1 x2 y2 p.1 p.2))) ∧
    (∀ p ∈ cs.zip ps, (¬ pyTruthy p.1 ∨ ¬ pyTruthy p.2) →
      exceptYield (processWord (.pyNum tw) x1 y1 x2 y2 p.1 p.2) = none) ∧
    (∀ p ∈ cs.zip ps, ∀ w, processWord (.pyNum tw) x1 y1 x2 y2 p.1 p.2 = .ok (some w) →
      w ∈ (cs.zip ps).filterMap
        (fun p => exceptYield (processWord (.pyNum tw) x1 y1 x2 y2 p.1 p.2))) ∧
    extract_individual_words wbd0 bboxEx = none := by
  refine ⟨extract_wf tw cs ps lang bbox x1 y1 x2 y2 hbox hcs hps hwords, ?_, ?_, rfl⟩
  · intro p hp hskip
    rw [processWord_skip _ _ _ _ _ _ _ hskip]
    rfl
  · intro p hp w hw
    exact List.mem_filterMap.mpr ⟨p, hp, by rw [hw]; rfl⟩

/-- C1 witness: metadata wbdSkip has a first word with empty arrays and a
well-formed second word "b"; the first is skipped and the second still
yields its WordFinding. -/
theorem C1_amended_word_guard_witness :
    extract_individual_words wbdSkip bboxEx =
      some [{ word := "b", confidence := 1,
              coordinates := ⟨(15, 0), (15, 0), (15, 10), (15, 10)⟩,
              character_positions := [("b", 15, 5)] }] := by
  have hpw := processWord_wf 30 0 0 30 10 (by norm_num) "b" [] 15 []
  have h := C1_amended_word_guard 30 0 0 30 10 bboxEx
    (cornerMins_axis 0 0 30 10 (by norm_num) (by norm_num))
    [strList [], strList ["b"]] [numList [], numList [15]]
    (by simp) (by simp) .pyNone
    (by
      intro pr hpr
      have hpr2 : pr = (strList [], numList []) ∨ pr = (strList ["b"], numList [15]) := by
        simpa using hpr
      rcases hpr2 with hpr2 | hpr2
      · subst hpr2
        exact ⟨none, processWord_skip _ _ _ _ _ _ _ (by simp [strList, pyTruthy])⟩
      · subst hpr2
        exact ⟨_, hpw⟩)
  refine h.1.trans ?_
  have hskip : processWord (.pyNum 30) 0 0 30 10 (strList []) (numList []) = .ok none :=
    processWord_skip _ _ _ _ _ _ _ (by simp [strList, pyTruthy])
  simp only [List.zip_cons_cons, List.zip_nil_right, List.filterMap_cons,
    List.filterMap_nil, exceptYield, hskip, hpw]
  norm_num [pyTrunc, List.foldl, String.join]

/-- C3 amended: the assembler stores float(raw) with no clamping — each
finding's confidence is exactly the raw confidence value of its source
entry, so 0.0 <= confidence <= 1.0 holds exactly when the engine's raw
values are already in that range (the as-stated claim fails, see
C3_counterexample). -/
theorem C3_amended_confidence_passthrough (recs : List PyVal) :
    (∀ f ∈ parse_results recs, ∃ v ∈ recs, rawConfOf v = some f.confidence) ∧
    ((∀ v ∈ recs, ∀ q : ℚ, rawConfOf v = some q → 0 ≤ q ∧ q ≤ 1) →
      ∀ f ∈ parse_results recs, 0 ≤ f.confidence ∧ f.confidence ≤ 1) := by
  constructor
  · intro f hf
    obtain ⟨v, hv, hpe⟩ := List.mem_filterMap.mp hf
    exact ⟨v, hv, parseEntry_conf v f hpe⟩
  · intro hall f hf
    obtain ⟨v, hv, hpe⟩ := List.mem_filterMap.mp hf
    exact hall v hv f.confidence (parseEntry_conf v f hpe)

/-- C3 witness: entryA carries raw confidence 1/2, in range, and its
finding's confidence is in range. -/
theorem C3_amended_confidence_passthrough_witness :
    0 ≤ findingA.confidence ∧ findingA.confidence ≤ 1 := by
  have h := (C3_amended_confidence_passthrough [entryA]).2
    (by
      intro v hv q hq
      have hv2 : v = entryA := by simpa using hv
      subst hv2
      have he : rawConfOf entryA = some (1/2 : ℚ) := rfl
      rw [he] at hq
      have hq2 : (1/2 : ℚ) = q := by simpa using hq
      rw [← hq2]
      norm_num)
  exact h findingA (by
    have : parse_results [entryA] = [findingA] := rfl
    rw [this]
    exact List.mem_singleton_self _)

/-- C5: for a word with nonzero total_width inside an axis-aligned region
of extent (x1,y1)-(x2,y2), the reconstructed box has integer x-coordinates
x(p) = x1 + (p/total_width)*(x2-x1) at p_min = min(positions) and
p_max = max(positions) (stored as the truncation int(float(x)) the data
model prescribes), with y spanning the full region height y1..y2. -/
theorem C5_word_box_formula (tw x1 y1 x2 y2 : ℚ) (htw : tw ≠ 0)
    (hx : x1 ≤ x2) (hy : y1 ≤ y2)
    (s : String) (ss : List String) (q : ℚ) (qs : List ℚ) (lang : PyVal) :
    extract_individual_words
        (.pyList [.pyNum tw, .pyList [strList (s :: ss)], .pyList [numList (q :: qs)], lang])
        (axisBox x1 y1 x2 y2) =
      some [{ word := String.join (s :: ss)
              confidence := 1
              coordinates := {
                top_left := (pyTrunc (x1 + (qs.foldl min q / tw) * (x2 - x1)), pyTrunc y1)
                top_right := (pyTrunc (x1 + (qs.foldl max q / tw) * (x2 - x1)), pyTrunc y1)
                bottom_right := (pyTrunc (x1 + (qs.foldl max q / tw) * (x2 - x1)), pyTrunc y2)
                bottom_left := (pyTrunc (x1 + (qs.foldl min q / tw) * (x2 - x1)), pyTrunc y2) }
              character_positions := ((s :: ss).zip (q :: qs)).map (fun cp =>
                (cp.1, pyTrunc (x1 + (cp.2 / tw) * (x2 - x1)), pyTrunc ((y1 + y2) / 2))) }] := by
  have hpw := processWord_wf tw x1 y1 x2 y2 htw s ss q qs
  have h := extract_wf tw [strList (s :: ss)] [numList (q :: qs)] lang
    (axisBox x1 y1 x2 y2) x1 y1 x2 y2 (cornerMins_axis x1 y1 x2 y2 hx hy)
    (by simp) (by simp)
    (by
      intro pr hpr
      have hpr2 : pr = (strList (s :: ss), numList (q :: qs)) := by simpa using hpr
      subst hpr2
      exact ⟨_, hpw⟩)
  refine h.trans ?_
  simp only [List.zip_cons_cons, List.zip_nil_right, List.filterMap_cons,
    List.filterMap_nil, exceptYield, hpw]

/-- C5 witness: the spec's worked example — total_width 30, region extent
(0,0)-(30,10), positions [0,5] — puts top_left.x = 0 and top_right.x = 5. -/
theorem C5_word_box_formula_witness :
    extract_individual_words wbdEx bboxEx = some [wordHi] := by
  have h := C5_word_box_formula 30 0 0 30 10 (by norm_num) (by norm_num) (by norm_num)
    "H" ["i"] 0 [5] (.pyList [])
  refine h.trans ?_
  norm_num [wordHi, pyTrunc, List.foldl, String.join]
  rfl

/-- pyMaxByLen on a nonempty list: the result is the first element of
maximal text length. -/
theorem pyMaxByLen_cons_spec (f : TextFinding) (fs : List TextFinding) :
    ∃ i : Fin (f :: fs).length, pyMaxByLen f fs = (f :: fs).get i ∧
      (∀ g ∈ f :: fs, g.text.length ≤ ((f :: fs).get i).text.length) ∧
      (∀ j : Fin (f :: fs).length, j.val < i.val →
        ((f :: fs).get j).text.length < ((f :: fs).get i).text.length) := by
  rcases pyMaxByLen_spec fs f with ⟨heq, hbound⟩ | ⟨i, heq, hgt, hbound, hfirst⟩
  · refine ⟨⟨0, Nat.succ_pos _⟩, heq, ?_, ?_⟩
    · intro g hg
      rcases List.mem_cons.mp hg with h | h
      · subst h; exact le_refl _
      · exact hbound g h
    · intro j hj
      have : j.val < 0 := hj
      omega
  · refine ⟨⟨i.val + 1, Nat.succ_lt_succ i.isLt⟩, heq, ?_, ?_⟩
    · intro g hg
      rcases List.mem_cons.mp hg with h | h
      · subst h; exact le_of_lt hgt
      · exact hbound g h
    · intro j hj
      rcases j with ⟨jv, hv⟩
      have hj1 : jv < i.val + 1 := hj
      cases jv with
      | zero => exact hgt
      | succ n =>
        have hn : n < fs.length := Nat.lt_of_succ_lt_succ hv
        exact hfirst ⟨n, hn⟩ (show n < i.val by omega)

/-- C6: the envelope statistics — all three confidence stats are 0.0 on
zero findings and the text stats zero/empty; total_characters and
total_words are the sums of per-finding character and whitespace-token
counts; on nonempty findings the average times the count is the sum of
confidences, minimum and maximum are attained lower and upper bounds, and
longest_text is the text of the first finding of maximal length. -/
theorem C6_envelope_statistics (findings : List TextFinding) (pt : ℚ)
    (dims : Nat × Nat) (viz : Option (Option String)) (ts : ℚ) :
    (findings = [] →
      (format_json findings pt dims viz ts).metadata.confidence_stats = ⟨0, 0, 0⟩ ∧
      (format_json findings pt dims viz ts).metadata.text_stats = ⟨0, 0, ""⟩) ∧
    (format_json findings pt dims viz ts).metadata.text_stats.total_characters =
      (findings.map (fun f => f.text.length)).sum ∧
    (format_json findings pt dims viz ts).metadata.text_stats.total_words =
      (findings.map (fun f => pyWordCount f.text)).sum ∧
    (findings ≠ [] →
      (format_json findings pt dims viz ts).metadata.confidence_stats.average *
          (findings.length : ℚ) = (findings.map (fun f => f.confidence)).sum ∧
      (∀ f ∈ findings,
        (format_json findings pt dims viz ts).metadata.confidence_stats.minimum ≤
          f.confidence) ∧
      (∃ f ∈ findings,
        (format_json findings pt dims viz ts).metadata.confidence_stats.minimum =
          f.confidence) ∧
      (∀ f ∈ findings,
        f.confidence ≤
          (format_json findings pt dims viz ts).metadata.confidence_stats.maximum) ∧
      (∃ f ∈ findings,
        (format_json findings pt dims viz ts).metadata.confidence_stats.maximum =
          f.confidence) ∧
      (∃ i : Fin findings.length,
        (format_json findings pt dims viz ts).metadata.text_stats.longest_text =
          (findings.get i).text ∧
        (∀ f ∈ findings, f.text.length ≤ (findings.get i).text.length) ∧
        (∀ j : Fin findings.length, j.val < i.val →
          (findings.get j).text.length < (findings.get i).text.length))) := by
  cases findings with
  | nil => exact ⟨fun _ => ⟨rfl, rfl⟩, rfl, rfl, fun h => absurd rfl h⟩
  | cons f fs =>
    refine ⟨fun h => absurd h (List.cons_ne_nil f fs), rfl, rfl, fun _ => ?_⟩
    have hc : (format_json (f :: fs) pt dims viz ts).metadata.confidence_stats =
        confStatsOf (f :: fs) := rfl
    have ht : (format_json (f :: fs) pt dims viz ts).metadata.text_stats =
        textStatsOf (f :: fs) := rfl
    have hcs : confStatsOf (f :: fs) =
        ⟨(f.confidence :: fs.map (fun g => g.confidence)).sum / ((fs.length + 1 : ℕ) : ℚ),
         (fs.map (fun g => g.confidence)).foldl min f.confidence,
         (fs.map (fun g => g.confidence)).foldl max f.confidence⟩ := by
      simp [confStatsOf]
    refine ⟨?_, ?_, ?_, ?_, ?_, ?_⟩
    · rw [hc, hcs]
      have hne : ((fs.length + 1 : ℕ) : ℚ) ≠ 0 := by
        exact_mod_cast Nat.succ_ne_zero fs.length
      have hlen : (((f :: fs).length : ℕ) : ℚ) = ((fs.length + 1 : ℕ) : ℚ) := by
        simp
      rw [hlen]
      simpa using div_mul_cancel₀
        ((f.confidence :: fs.map (fun g => g.confidence)).sum) hne
    · intro g hg
      rw [hc, hcs]
      rcases List.mem_cons.mp hg with h | h
      · subst h
        exact (foldl_min_le (fs.map (fun g => g.confidence)) g.confidence).1
      · exact (foldl_min_le (fs.map (fun g => g.confidence)) f.confidence).2
          g.confidence (List.mem_map_of_mem _ h)
    · rw [hc, hcs]
      rcases foldl_min_mem (fs.map (fun g => g.confidence)) f.confidence with h | h
      · exact ⟨f, List.mem_cons_self f fs, h⟩
      · obtain ⟨g, hg, hgc⟩ := List.mem_map.mp h
        exact ⟨g, List.mem_cons_of_mem f hg, hgc.symm⟩
    · intro g hg
      rw [hc, hcs]
      rcases List.mem_cons.mp hg with h | h
      · subst h
        exact (foldl_max_ge (fs.map (fun g => g.confidence)) g.confidence).1
      · exact (foldl_max_ge (fs.map (fun g => g.confidence)) f.confidence).2
          g.confidence (List.mem_map_of_mem _ h)
    · rw [hc, hcs]
      rcases foldl_max_mem (fs.map (fun g => g.confidence)) f.confidence with h | h
      · exact ⟨f, List.mem_cons_self f fs, h⟩
      · obtain ⟨g, hg, hgc⟩ := List.mem_map.mp h
        exact ⟨g, List.mem_cons_of_mem f hg, hgc.symm⟩
    · obtain ⟨i, heq, hbound, hfirst⟩ := pyMaxByLen_cons_spec f fs
      refine ⟨i, ?_, hbound, hfirst⟩
      rw [ht]
      exact congrArg (fun w => w.text) heq

/-- C6 witness: the statistics at the concrete inputs [] and
[findingHello] (text "HELLO", confidence 0.95). -/
theorem C6_envelope_statistics_witness :
    (format_json [] 1 (2, 2) none 5).metadata.confidence_stats = ⟨0, 0, 0⟩ ∧
    (format_json [] 1 (2, 2) none 5).metadata.text_stats = ⟨0, 0, ""⟩ ∧
    (format_json [findingHello] 1 (2, 2) none 5).metadata.confidence_stats.average *
      (([findingHello] : List TextFinding).length : ℚ) =
      ([findingHello].map (fun f => f.confidence)).sum ∧
    (format_json [findingHello] 1 (2, 2) none 5).metadata.confidence_stats.minimum ≤
      findingHello.confidence ∧
    findingHello.confidence ≤
      (format_json [findingHello] 1 (2, 2) none 5).metadata.confidence_stats.maximum ∧
    (format_json [findingHello] 1 (2, 2) none 5).metadata.text_stats.total_characters =
      ([findingHello].map (fun f => f.text.length)).sum := by
  have h0 := C6_envelope_statistics [] 1 (2, 2) none 5
  have h1 := C6_envelope_statistics [findingHello] 1 (2, 2) none 5
  have hne : ([findingHello] : List TextFinding) ≠ [] := by simp
  obtain ⟨havg, hmin, hminm, hmax, hmaxm, hlong⟩ := h1.2.2.2 hne
  exact ⟨(h0.1 rfl).1, (h0.1 rfl).2, havg,
    hmin findingHello (List.mem_singleton_self _),
    hmax findingHello (List.mem_singleton_self _), h1.2.1⟩

/-- C8: an entry whose parse raises (wrong arity, missing field) is
skipped and only it: the findings are exactly those of the remaining
entries, in order, and the envelope built from them still has
success = true. -/
theorem C8_malformed_entry_skipped (xs ys : List PyVal) (m : PyVal)
    (hm : parseEntry m = none) (pt : ℚ) (dims : Nat × Nat)
    (viz : Option (Option String)) (ts : ℚ) :
    parse_results (xs ++ m :: ys) = parse_results xs ++ parse_results ys ∧
    (format_json (parse_results (xs ++ m :: ys)) pt dims viz ts).metadata.success =
      true := by
  constructor
  · simp [parse_results, List.filterMap_append, List.filterMap_cons, hm]
  · rfl

/-- C8 witness: entryBad (second slot of arity 1, confidence missing) is
skipped between two copies of the valid entryEx; both other entries
survive and success stays true. -/
theorem C8_malformed_entry_skipped_witness :
    parseEntry entryBad = none ∧
    parse_results [entryEx, entryBad, entryEx] =
      parse_results [entryEx] ++ parse_results [entryEx] ∧
    ((format_json (parse_results [entryEx, entryBad, entryEx]) 1 (30, 10) none 5)
      ).metadata.success = true := by
  have h := C8_malformed_entry_skipped [entryEx] [entryEx] entryBad rfl 1 (30, 10) none 5
  exact ⟨rfl, h.1, h.2⟩

/-- C9 counterexample: a syntactically valid JSON message that merely
lacks the image field is answered with the minimal protocol-error object,
not an ErrorEnvelope — so the minimal object is not reserved for plain
malformed JSON alone. -/
theorem C9_counterexample :
    handle_client 1 2 [.noImage] =
      [.protocolError "Missing 'image' field in request"] ∧
    (∀ env : Envelope,
      WsResponse.protocolError "Missing 'image' field in request" ≠
        WsResponse.envelope env) := by
  exact ⟨rfl, fun env h => WsResponse.noConfusion h⟩

/-- C9 amended: each inbound message receives exactly one response, in
order, each determined by that message alone (the loop is a map, so one
failure never ends the connection or affects later messages); malformed
JSON and missing-image messages get the minimal protocol-error object,
while undecodable base64 and any other processing fault get a full
ErrorEnvelope; the claim's triple — valid, invalid base64, valid —
yields envelope, error envelope, envelope in order. -/
theorem C9_amended_per_message_isolation (pt ts : ℚ) (msgs : List InMsg) :
    (handle_client pt ts msgs).length = msgs.length ∧
    (∀ i r, (handle_client pt ts msgs).get? i = some r →
      ∃ m, msgs.get? i = some m ∧ r = wsStep pt ts m) ∧
    wsStep pt ts .badJson = .protocolError "Invalid JSON format" ∧
    wsStep pt ts .noImage = .protocolError "Missing 'image' field in request" ∧
    (∀ e, wsStep pt ts (.image (.fail e)) =
        .envelope (handle_ocr_error e "websocket_image" ts) ∧
      (handle_ocr_error e "websocket_image" ts).metadata.success = false) ∧
    (∀ dims recs, wsStep pt ts (.image (.ok dims recs)) =
        .envelope (format_json (parse_results recs) pt dims none ts) ∧
      (format_json (parse_results recs) pt dims none ts).metadata.success = true) ∧
    handle_client pt ts
        [.image (.ok (2, 2) []),
         .image (.fail (.valueError "Failed to decode base64 image: x")),
         .image (.ok (2, 2) [])] =
      [.envelope (format_json [] pt (2, 2) none ts),
       .envelope (handle_ocr_error (.valueError "Failed to decode base64 image: x")
         "websocket_image" ts),
       .envelope (format_json [] pt (2, 2) none ts)] := by
  refine ⟨by simp [handle_client], ?_, rfl, rfl, fun e => ⟨rfl, rfl⟩,
    fun dims recs => ⟨rfl, rfl⟩, rfl⟩
  intro i r hr
  simp only [handle_client, List.get?_map] at hr
  cases hm : msgs.get? i with
  | none =>
    rw [hm] at hr
    exact absurd hr (by simp)
  | some m =>
    rw [hm] at hr
    simp only [Option.map] at hr
    exact ⟨m, rfl, ((Option.some.injEq _ _).mp hr).symm⟩
